import Mathlib

/-!
Verification of the tahoe-backup agent against its specification.

The definitions below are a shallow embedding of the Rust sources:
  * `src/tahoe/src/client.rs`  — store client, `Dir`, `DirNode`, directory hash
  * `src/backupdb/src/backupdb.rs`, `models.rs`, `schema.rs` — the reuse index
  * `src/src/main.rs`          — the traversal pipeline and driver
Machine integers are modelled as `Nat`/`Int` with explicit reductions mod 2^64
at the points where the Rust code casts (`as i64`).
-/

namespace TahoeBackup

/-! ## UTF-8 encoding

`Dir::push` (client.rs lines 55-59) feeds `str::as_bytes` of the child name and
of the child's `ro_uri` to the hasher; Rust strings are UTF-8, so `as_bytes` is
the UTF-8 encoding of the string. -/

/-- UTF-8 encoding of one Unicode scalar value `c`, as its list of byte values
(standard 1–4 byte encoding). -/
def utf8Char (c : Nat) : List Nat :=
  if c < 0x80 then [c]
  else if c < 0x800 then [0xC0 + c / 0x40, 0x80 + c % 0x40]
  else if c < 0x10000 then
    [0xE0 + c / 0x1000, 0x80 + c / 0x40 % 0x40, 0x80 + c % 0x40]
  else
    [0xF0 + c / 0x40000, 0x80 + c / 0x1000 % 0x40, 0x80 + c / 0x40 % 0x40,
      0x80 + c % 0x40]

/-- The UTF-8 bytes of a string (`str::as_bytes` in Rust). -/
def utf8Bytes (s : String) : List Nat :=
  (s.data.map fun c => utf8Char c.toNat).flatten

/-- Rust `str::starts_with` on strings, computed on the character lists. -/
def beginsWith : List Char → List Char → Bool
  | _, [] => true
  | [], _ :: _ => false
  | a :: as, b :: bs => a == b && beginsWith as bs

/-- Whether a capability string denotes a directory: `cap.starts_with("URI:DIR")`. -/
def isDirCap (cap : String) : Bool :=
  beginsWith cap.data "URI:DIR".data

/-! ## SeaHash

Modelled from the spec: §4.4 pins the directory hash to "SeaHash or any fast
non-cryptographic hash with a documented fixed seed"; the `seahash` crate used
by client.rs is an external dependency whose source is not part of this
repository.  We implement SeaHash's published design: the byte stream is split
into 8-byte little-endian words (the last word zero-padded), each word is
folded into four lanes round-robin, the lanes start from the documented fixed
seed constants, and finalization mixes the four lanes with the total length.
All arithmetic is on 64-bit words, modelled as `Nat` mod 2^64.  The streaming
`Hasher::write` of the crate buffers partial words, so the final value depends
only on the concatenation of all bytes written; the hasher state is therefore
modelled as the list of bytes fed so far. -/

def U64 : Nat := 2 ^ 64

/-- SeaHash's diffusion function (multiply–xorshift–multiply), mod 2^64. -/
def diffuse (x : Nat) : Nat :=
  let p := 0x6eed0e9da4d94a4f
  let x := x * p % U64
  let x := Nat.xor x ((x / 2 ^ 32) >>> (x / 2 ^ 60))
  x * p % U64

/-- Little-endian value of a list of bytes. -/
def leWord (bytes : List Nat) : Nat :=
  bytes.foldr (fun b acc => b % 256 + 256 * acc) 0

/-- Split a byte list into chunks of (at most) 8 bytes. -/
def chunk8 : List Nat → List (List Nat)
  | [] => []
  | [a] => [[a]]
  | [a, b] => [[a, b]]
  | [a, b, c] => [[a, b, c]]
  | [a, b, c, d] => [[a, b, c, d]]
  | [a, b, c, d, e] => [[a, b, c, d, e]]
  | [a, b, c, d, e, f] => [[a, b, c, d, e, f]]
  | [a, b, c, d, e, f, g] => [[a, b, c, d, e, f, g]]
  | a :: b :: c :: d :: e :: f :: g :: h :: rest =>
    [a, b, c, d, e, f, g, h] :: chunk8 rest

/-- The four fixed seed lanes of SeaHash. -/
structure SeaState where
  a : Nat
  b : Nat
  c : Nat
  d : Nat
deriving Repr, DecidableEq

def seaInit : SeaState :=
  ⟨0x16f11fe89b0d677c, 0xb480a793d8e6c86c, 0x6fe2e5aab78d88c2, 0x14f994a4c5259381⟩

/-- Fold one 64-bit word into the state, rotating the lanes. -/
def seaPush (s : SeaState) (x : Nat) : SeaState :=
  ⟨s.b, s.c, s.d, diffuse (Nat.xor s.a x)⟩

/-- SeaHash of a byte stream: fixed seed, word-wise lane mixing, finalization
with the total length. -/
def seaHash (bytes : List Nat) : Nat :=
  let s := (chunk8 bytes).foldl (fun st w => seaPush st (leWord w)) seaInit
  diffuse (Nat.xor (Nat.xor (Nat.xor s.a s.b) (Nat.xor s.c s.d)) (bytes.length % U64))

/-! ## `DirNode` and `Dir` (client.rs lines 28-119) -/

/-- The outcome of `std::fs::Metadata`'s `created()` / `modified()` calls used
by `DirNode::new`: each is an `io::Result<SystemTime>`; `none` models an `Err`
from the OS.  A `SystemTime` is modelled as whole seconds relative to the Unix
epoch (`Int`, so pre-epoch times are negative). -/
structure FsMeta where
  created : Option Int
  modified : Option Int
deriving Repr, DecidableEq

/-- Rust `SystemTime::duration_since(UNIX_EPOCH)`: fails (`none`) for a time before
the epoch; otherwise the duration, whose `as_secs` is a `u64`. -/
def durationSinceEpoch (t : Int) : Option Nat :=
  if t < 0 then none else some t.toNat

/-- The per-child manifest entry (client.rs `DirNode(NodeType, DirNodeInner)`).
`isDir` is the `NodeType`; `ctimeM`/`mtimeM` are the entries of the
`metadata: HashMap<String, u64>` (the only keys the code ever inserts). -/
structure DirNode where
  isDir : Bool
  ro_uri : String
  ctimeM : Option Nat
  mtimeM : Option Nat
deriving Repr, DecidableEq

/-- Embeds `DirNode::new` (client.rs lines 94-114): the node type is decided by the
`URI:DIR` prefix; `ctime`/`mtime` are inserted only when the metadata is `Ok`,
the corresponding time is available, and it is not before the epoch. -/
def DirNode.new (ro_uri : String) (meta : Option FsMeta) : DirNode :=
  { isDir := isDirCap ro_uri
    ro_uri := ro_uri
    ctimeM := meta.bind fun m => m.created.bind durationSinceEpoch
    mtimeM := meta.bind fun m => m.modified.bind durationSinceEpoch }

/-- Embeds `Dir` (client.rs lines 42-64): the ordered children together with the
hasher state, which is the byte stream fed so far (see `seaHash` above). -/
structure Dir where
  inner : List (String × DirNode)
  hasherFed : List Nat
deriving Repr, DecidableEq

/-- Embeds `Dir::new`. -/
def Dir.new : Dir := ⟨[], []⟩

/-- Embeds `Dir::push`: appends the child and feeds the name bytes then the `ro_uri`
bytes to the hasher. -/
def Dir.push (d : Dir) (v : String × DirNode) : Dir :=
  ⟨d.inner ++ [v], d.hasherFed ++ utf8Bytes v.1 ++ utf8Bytes v.2.ro_uri⟩

/-- Embeds `Dir::hash`: finish the hasher. -/
def Dir.hash (d : Dir) : Nat := seaHash d.hasherFed

/-- Embeds `Dir::from_iter` (client.rs lines 79-88). -/
def Dir.fromIter (l : List (String × DirNode)) : Dir :=
  l.foldl Dir.push Dir.new

example :
    (Dir.fromIter [("a", DirNode.new "URI:CHK:x" none)]).inner
      = [("a", DirNode.new "URI:CHK:x" none)] := by decide

/-! ## The reuse index (backupdb.rs, models.rs, schema.rs)

The index is a SQLite database; we model its observable state as lists of
rows, in insertion order (SQLite scans return rows in rowid order for these
tables, and the code only ever takes the first matching row of keyed queries).
Surrogate ids (`fileid`, assigned by SQLite as rowids) are modelled by the
`nextId` counter. -/

/-- A `local_files` row (models.rs `LocalFile`, schema.rs `local_files`). -/
structure LocalFile where
  path : String
  size : Int
  mtime : Int
  ctime : Int
  fileid : Nat
deriving Repr, DecidableEq

/-- The observable index state: `caps (fileid, filecap)`,
`last_upload (fileid, last_uploaded)`, `local_files`, and SQLite's rowid
counter for `caps`. -/
structure DB where
  caps : List (Nat × String)
  lastUpload : List (Nat × Nat)
  localFiles : List LocalFile
  nextId : Nat
deriving Repr, DecidableEq

/-- Embeds `BackupDB::check_file` (backupdb.rs lines 28-46): select the `local_files`
row keyed by `path`, inner-joined with `caps` on `fileid`; if any of
size/ctime/mtime differs from the arguments, delete the row (by its primary
key `path`) and return `none`; otherwise return the joined `filecap`.  The
returned pair is (query result, index state afterwards). -/
def DB.check_file (db : DB) (path : String) (size ctime mtime : Int) :
    Option String × DB :=
  match db.localFiles.find? fun f => f.path == path with
  | none => (none, db)
  | some f =>
    match db.caps.find? fun c => c.1 == f.fileid with
    | none => (none, db)
    | some c =>
      if f.size ≠ size || f.ctime ≠ ctime || f.mtime ≠ mtime then
        (none, { db with localFiles := db.localFiles.filter fun g => !(g.path == path) })
      else
        (some c.2, db)

/-- Embeds `BackupDB::add_file` (backupdb.rs lines 48-89).
1. Insert `cap` into `caps`; on a uniqueness conflict, look up the existing
   `fileid`; otherwise the new row gets rowid `nextId` (`last_insert_rowid`).
2. `diesel::delete(last_upload.find(fileid))` (line 72): the value passed as
   the primary key is the *column* `fileid` itself, so the generated predicate
   is `fileid = fileid`, which holds of every row — every `last_upload` row is
   deleted.  The delete is modelled literally with that predicate.
3. Insert a fresh `last_upload` row for the resolved id.  Its `last_uploaded`
   column is filled by the table default; the migration SQL is not under
   `src/`, so — modelled from the spec (§4.2 step 2: "insert a fresh
   `last_upload(file-id, now)`") — the current time is the `now` argument.
4. Delete the `local_files` row keyed by `path` and insert the new one. -/
def DB.add_file (db : DB) (cap : String) (path : String)
    (size ctime mtime : Int) (now : Nat) : DB :=
  let resolved : Nat × List (Nat × String) × Nat :=
    match db.caps.find? fun c => c.2 == cap with
    | some c => (c.1, db.caps, db.nextId)
    | none => (db.nextId, db.caps ++ [(db.nextId, cap)], db.nextId + 1)
  let id := resolved.1
  { caps := resolved.2.1
    lastUpload := (db.lastUpload.filter fun r => !(r.1 == r.1)) ++ [(id, now)]
    localFiles := (db.localFiles.filter fun g => !(g.path == path)) ++
      [{ path := path, size := size, ctime := ctime, mtime := mtime, fileid := id }]
    nextId := resolved.2.2 }

/-- Well-formedness of a reachable index state: `caps` ids are unique (primary
key) and below the rowid counter, every `local_files.fileid` references a
`caps` row (the spec's §3 invariant, maintained by `add_file`), and paths are
unique in `local_files` (primary key). -/
def DB.WF (db : DB) : Prop :=
  (db.caps.map Prod.fst).Nodup ∧
  (∀ c ∈ db.caps, c.1 < db.nextId) ∧
  (∀ f ∈ db.localFiles, ∃ c ∈ db.caps, c.1 = f.fileid) ∧
  (db.localFiles.map LocalFile.path).Nodup

/-! ## The traversal pipeline (main.rs)

`upload` receives a path and the `io::Result<fs::Metadata>` of that entry, and
recurses over directories.  The local tree, together with the outcomes of the
syscalls the traversal performs on it (`metadata`, `File::open`,
`fs::read_dir`), is modelled by the mutually inductive `Node`/`Kids`.  The
sizes and `FileTime` second counts reported by the filesystem are `u64`
(`Nat`); the code casts them with `as i64` (`i64ofU64`). -/

/-- The `u64 → i64` cast (`as i64` in Rust): reduce mod 2^64, then values at or
above 2^63 wrap to negatives. -/
def i64ofU64 (n : Nat) : Int :=
  if n % U64 < 2 ^ 63 then ((n % U64 : Nat) : Int) else ((n % U64 : Nat) : Int) - (U64 : Int)

mutual
/-- One local filesystem entry as seen by `upload` (main.rs lines 115-235):
the file type reported by its metadata, the metadata values the pipeline
reads, and the outcomes of the syscalls on it.
* `metaFail` — the entry's `metadata()` call returned `Err`;
* `file size ctimeF mtimeF openOk meta` — a regular file: `metadata.len()`,
  `FileTime::from_creation_time` (`none` when the filesystem reports no
  creation time), `FileTime::from_last_modification_time`, whether
  `File::open` succeeds, and the `created()`/`modified()` values used by
  `DirNode::new`;
* `dirFail` — a directory whose `fs::read_dir` fails;
* `dirNode` — a directory with its child entries in enumeration order;
* `special` — device/socket/FIFO. -/
inductive Node where
  | metaFail
  | symlink (meta : FsMeta)
  | file (size : Nat) (ctimeF : Option Nat) (mtimeF : Nat) (openOk : Bool) (meta : FsMeta)
  | dirFail (meta : FsMeta)
  | dirNode (meta : FsMeta) (children : Kids)
  | special (meta : FsMeta)

/-- Child entries of a directory, in `read_dir` enumeration order. -/
inductive Kids where
  | nil
  | cons (name : String) (child : Node) (rest : Kids)
end

/-- The `io::Result<Metadata>` passed to `DirNode::new` for an entry: `Err`
exactly when the metadata read failed. -/
def Node.fsMeta : Node → Option FsMeta
  | .metaFail => none
  | .symlink m => some m
  | .file _ _ _ _ m => some m
  | .dirFail m => some m
  | .dirNode m _ => some m
  | .special m => some m

/-- The store's reply to one HTTP request (client.rs lines 154-253): a 2xx
response whose body is the returned capability, a non-2xx status
(`ErrorKind::Tahoe(status)`), or a transport-level failure. -/
inductive StoreResult where
  | ok (body : String)
  | status (code : Nat)
  | transport
deriving Repr, DecidableEq

/-- The error taxonomy of the pipeline (main.rs `errors`, plus the chained
string-only errors the code produces). -/
inductive Err where
  | readMetadata (path : String)
  | notFollowingSymlink
  | fileOpen (path : String)
  | fileUpload (path : String)
  | readDir (path : String)
  | unknownFile (path : String)
  | uploadDirFailed (path : String)
  | attachFailed
deriving Repr, DecidableEq

/-- Observable side effects of a traversal, in order: opening a local file,
the PUT of a file body, the POST of a directory manifest, a soft failure
logged and dropped by `ok_or_log` at the parent, and an attach PUT. -/
inductive Event where
  | openFile (path : String)
  | putFile (path : String)
  | postDir (path : String)
  | logged (e : Err)
  | attachReq (name : String) (cap : String)
deriving Repr, DecidableEq

/-- The pipeline's collaborators, as oracles keyed by the request the code
sends.
* `checkFile`/`checkDir` — the index (`checkDir` is modelled from the spec
  §4.2: `BackupDB::check_dir` is called by main.rs but its body is not under
  `src/`; per the spec it returns the capability previously recorded for the
  hash, or `None`);
* `storeFile` — the store's reply to the PUT of the file at a path;
* `storeDir` — the store's reply to the POST of a manifest;
* `attach` — whether the attach PUT for a link name and capability succeeds;
* `excluded` — the glob-set exclusion filter on a child's path. -/
structure Env where
  checkFile : String → Int → Int → Int → Option String
  checkDir : Int → Option String
  storeFile : String → StoreResult
  storeDir : List (String × DirNode) → StoreResult
  attach : String → String → Bool
  excluded : String → Bool

/-- Embeds `upload_dir` (main.rs lines 237-265): hash the manifest, consult
`check_dir`, and POST the manifest only on a miss.  A failed POST is a *hard*
error (it is mapped into the future's error channel, main.rs line 262). -/
def uploadDirStep (env : Env) (path : String) (d : Dir) (evs : List Event) :
    Except Err (Except Err String) × List Event :=
  match env.checkDir (i64ofU64 d.hash) with
  | some cap => (.ok (.ok cap), evs)
  | none =>
    match env.storeDir d.inner with
    | .ok cap => (.ok (.ok cap), evs ++ [.postDir path])
    | _ => (.error (.uploadDirFailed path), evs ++ [.postDir path])

mutual
/-- Embeds `upload` (main.rs lines 115-235).  The returned value mirrors the future's
type `Future<Item = Result<String>, Error = Error>`: the outer `Except` is the
future's error channel (a *hard* failure that unwinds), the inner one the
`Result` item (a *soft* failure the parent logs and drops).  Routing, from the
code:
* metadata error → soft `ReadMetadata` (line 123);
* symlink → soft `"not following symlink"` (line 134);
* regular file: a `check_file` hit returns the capability with no further
  effect (line 145); a failed `File::open` is soft (line 150); a failed store
  upload is mapped to `FileUpload` on the error channel — *hard* (line 170);
* directory: a failed `read_dir` is soft (line 177); children are filtered by
  the glob set, recursed into, soft failures logged and dropped
  (`filter_map(ok_or_log)`, line 226), and a hard child failure fails the
  whole directory stream; survivors form the manifest in launch order;
* anything else → soft `UnknownFile` (line 234).
The event list models launch-order semantics of the `buffered` stream with
abort at the first hard error; effects of in-flight siblings that the real
scheduler may still run before the abort are not modelled. -/
def uploadNode (env : Env) (path : String) : Node → Except Err (Except Err String) × List Event
  | .metaFail => (.ok (.error (.readMetadata path)), [])
  | .symlink _ => (.ok (.error .notFollowingSymlink), [])
  | .file size ctimeF mtimeF openOk _ =>
    match env.checkFile path (i64ofU64 size) (i64ofU64 (ctimeF.getD 0)) (i64ofU64 mtimeF) with
    | some cap => (.ok (.ok cap), [])
    | none =>
      if openOk then
        match env.storeFile path with
        | .ok cap => (.ok (.ok cap), [.openFile path, .putFile path])
        | _ => (.error (.fileUpload path), [.openFile path, .putFile path])
      else (.ok (.error (.fileOpen path)), [.openFile path])
  | .dirFail _ => (.ok (.error (.readDir path)), [])
  | .special _ => (.ok (.error (.unknownFile path)), [])
  | .dirNode _ cs =>
    match uploadKids env path cs with
    | (.error e, evs) => (.error e, evs)
    | (.ok pairs, evs) => uploadDirStep env path (Dir.fromIter pairs) evs
termination_by structural n => n

/-- The per-directory child stream (main.rs lines 191-231): filter by the glob
set, recurse, pair each success with its `DirNode`, log and drop soft
failures, abort on the first hard failure. -/
def uploadKids (env : Env) (path : String) :
    Kids → Except Err (List (String × DirNode)) × List Event
  | .nil => (.ok [], [])
  | .cons name child rest =>
    if env.excluded (path ++ "/" ++ name) then uploadKids env path rest
    else
      match uploadNode env (path ++ "/" ++ name) child with
      | (.error e, evs) => (.error e, evs)
      | (.ok (.error e), evs) =>
        let r := uploadKids env path rest
        (r.1, evs ++ .logged e :: r.2)
      | (.ok (.ok cap), evs) =>
        match uploadKids env path rest with
        | (.error e, evs') => (.error e, evs ++ evs')
        | (.ok pairs, evs') =>
          (.ok ((name, DirNode.new cap child.fsMeta) :: pairs), evs ++ evs')
termination_by structural l => l
end

/-- Embeds `run` (main.rs lines 284-369), from the point where the root upload
future is chained: a hard or soft root failure fails the run; otherwise both
attach PUTs (`Archives/<timestamp>` and `"Latest"`) are issued and joined, and
the run succeeds only if both succeed.  The timestamp string
(`Archives/` ++ RFC3339 of `Utc::now()`) is the `archivesName` argument. -/
def runWork (env : Env) (rootPath : String) (root : Node) (archivesName : String) :
    Except Err Unit × List Event :=
  let r := uploadNode env rootPath root
  match r.1 with
  | .error e => (.error e, r.2)
  | .ok (.error e) => (.error e, r.2)
  | .ok (.ok cap) =>
    let evs := r.2 ++ [.attachReq archivesName cap, .attachReq "Latest" cap]
    if env.attach archivesName cap && env.attach "Latest" cap then (.ok (), evs)
    else (.error .attachFailed, evs)

/-- Embeds `main` (main.rs lines 371-373): `run().map_err(log_err).ok();` — the error
is logged and discarded, `main` returns unit, so the process exit status is 0
no matter how `run` ended. -/
def mainExitCode (env : Env) (rootPath : String) (root : Node) (archivesName : String) : Nat :=
  match (runWork env rootPath root archivesName).1 with
  | .ok _ => 0
  | .error _ => 0

/-! ## JSON serialization of a manifest (client.rs lines 28-40, 66-77, 90-91)

`serde_json` output, as an abstract JSON value.  Object member order is
meaningful: `Serialize for Dir` walks `self.inner` in order.  A Rust
`HashMap` iterates in unspecified order; the metadata map holds at most the
two keys `ctime`, `mtime`, and we fix that order (no claim and no spec
sentence depends on it). -/

inductive Json where
  | str (s : String)
  | num (n : Nat)
  | arr (elems : List Json)
  | obj (members : List (String × Json))

/-- The serialization of the `metadata` map of a node. -/
def metaJson (v : DirNode) : Json :=
  .obj ((match v.ctimeM with | some n => [("ctime", Json.num n)] | none => []) ++
        (match v.mtimeM with | some n => [("mtime", Json.num n)] | none => []))

/-- The serde tag of `NodeType` (client.rs lines 34-40). -/
def nodeTag (v : DirNode) : String :=
  if v.isDir then "dirnode" else "filenode"

/-- Serialization of a `DirNode`: a tuple struct of the type tag and the
`DirNodeInner` record, i.e. the two-element array
`[tag, {"ro_uri": …, "metadata": {…}}]`. -/
def DirNode.toJson (v : DirNode) : Json :=
  .arr [.str (nodeTag v), .obj [("ro_uri", .str v.ro_uri), ("metadata", metaJson v)]]

/-- Embeds `Serialize for Dir` (client.rs lines 66-77): a map whose entries are
`inner` in insertion order. -/
def Dir.toJson (d : Dir) : Json :=
  .obj (d.inner.map fun p => (p.1, p.2.toJson))

/-! ## Basic facts about `Dir` -/

theorem fromIter_go (d : Dir) (l : List (String × DirNode)) :
    (l.foldl Dir.push d).inner = d.inner ++ l ∧
    (l.foldl Dir.push d).hasherFed =
      d.hasherFed ++ (l.map fun p => utf8Bytes p.1 ++ utf8Bytes p.2.ro_uri).flatten := by
  induction l generalizing d with
  | nil => simp
  | cons p l ih =>
    obtain ⟨h1, h2⟩ := ih (d.push p)
    rw [List.foldl_cons]
    refine ⟨?_, ?_⟩
    · rw [h1]; simp [Dir.push]
    · rw [h2]; simp [Dir.push]

theorem fromIter_inner (l : List (String × DirNode)) :
    (Dir.fromIter l).inner = l := by
  simpa [Dir.fromIter, Dir.new] using (fromIter_go Dir.new l).1

theorem fromIter_hasherFed (l : List (String × DirNode)) :
    (Dir.fromIter l).hasherFed =
      (l.map fun p => utf8Bytes p.1 ++ utf8Bytes p.2.ro_uri).flatten := by
  simpa [Dir.fromIter, Dir.new] using (fromIter_go Dir.new l).2

theorem diffuse_lt (x : Nat) : diffuse x < U64 :=
  Nat.mod_lt _ (by norm_num [U64])

/-! ## C2 -/

/-- C2: two `Dir`s built by identical ordered push sequences whose names and
`ro_uri`s agree pairwise hash to the same 64-bit value, even when the pushed
nodes' metadata differs; the value is the fixed-seed hash of the byte stream
made of, per push in order, the UTF-8 bytes of the name then the UTF-8 bytes
of the `ro_uri`; and `Dir.hash`, being a function of that stream with a
constant seed, is deterministic across processes. -/
theorem dir_hash_only_names_and_uris (l₁ l₂ : List (String × DirNode))
    (h : l₁.map (fun p => (p.1, p.2.ro_uri)) = l₂.map (fun p => (p.1, p.2.ro_uri))) :
    (Dir.fromIter l₁).hash = (Dir.fromIter l₂).hash ∧
    (Dir.fromIter l₁).hash =
      seaHash ((l₁.map fun p => utf8Bytes p.1 ++ utf8Bytes p.2.ro_uri).flatten) ∧
    (Dir.fromIter l₁).hash < 2 ^ 64 := by
  have key : ∀ l : List (String × DirNode),
      (l.map fun p => utf8Bytes p.1 ++ utf8Bytes p.2.ro_uri) =
      ((l.map fun p => (p.1, p.2.ro_uri)).map fun q => utf8Bytes q.1 ++ utf8Bytes q.2) := by
    intro l; simp [List.map_map]
  refine ⟨?_, ?_, ?_⟩
  · simp only [Dir.hash, fromIter_hasherFed, key, h]
  · simp only [Dir.hash, fromIter_hasherFed]
  · simpa [Dir.hash, seaHash] using diffuse_lt _

/-- Witness for C2: two concrete single-push sequences that differ only in
metadata agree on names and `ro_uri`s and hash equally. -/
theorem dir_hash_only_names_and_uris_witness :
    ([("a", DirNode.new "URI:CHK:x" (some ⟨some 1, some 2⟩))].map
        (fun p => (p.1, p.2.ro_uri)) =
      [("a", DirNode.new "URI:CHK:x" (some ⟨some 3, none⟩))].map
        (fun p => (p.1, p.2.ro_uri))) ∧
    (Dir.fromIter [("a", DirNode.new "URI:CHK:x" (some ⟨some 1, some 2⟩))]).hash =
      (Dir.fromIter [("a", DirNode.new "URI:CHK:x" (some ⟨some 3, none⟩))]).hash :=
  ⟨by decide, (dir_hash_only_names_and_uris _ _ (by decide)).1⟩

/-! ## C8 -/

/-- C8: serializing a `Dir` yields a JSON object whose members are exactly the
pushes, in push order; each value is the two-element array
`[tag, {"ro_uri": cap, "metadata": {…}}]`, and the tag is `"dirnode"` exactly
when the capability starts with `URI:DIR`, else `"filenode"`. -/
theorem dir_serialization_shape (l : List (String × String × Option FsMeta)) :
    Dir.toJson (Dir.fromIter (l.map fun e => (e.1, DirNode.new e.2.1 e.2.2))) =
      Json.obj (l.map fun e =>
        (e.1, Json.arr
          [Json.str (if isDirCap e.2.1 then "dirnode" else "filenode"),
           Json.obj [("ro_uri", Json.str e.2.1),
                     ("metadata", metaJson (DirNode.new e.2.1 e.2.2))]])) := by
  simp only [Dir.toJson, fromIter_inner, List.map_map]
  rfl

/-! ## C10 -/

/-- C10: `DirNode::new` is total — it is a function returning a node for every
capability string and metadata argument — and the `ctime`/`mtime` keys are
present in the node's metadata exactly when the metadata read succeeded, the
corresponding time was available, and it does not precede the Unix epoch;
in every other case the key is simply absent, so a failed metadata read of a
child never fails the manifest build. -/
theorem dirnode_new_total_metadata (uri : String) (meta : Option FsMeta) :
    (DirNode.new uri meta).ro_uri = uri ∧
    (DirNode.new uri meta).isDir = isDirCap uri ∧
    (∀ u, (DirNode.new uri meta).ctimeM = some u ↔
      ∃ t, meta.bind FsMeta.created = some t ∧ 0 ≤ t ∧ (u : Int) = t) ∧
    ((DirNode.new uri meta).ctimeM = none ↔
      meta.bind FsMeta.created = none ∨
        ∃ t, meta.bind FsMeta.created = some t ∧ t < 0) ∧
    (∀ u, (DirNode.new uri meta).mtimeM = some u ↔
      ∃ t, meta.bind FsMeta.modified = some t ∧ 0 ≤ t ∧ (u : Int) = t) ∧
    ((DirNode.new uri meta).mtimeM = none ↔
      meta.bind FsMeta.modified = none ∨
        ∃ t, meta.bind FsMeta.modified = some t ∧ t < 0) := by
  refine ⟨rfl, rfl, ?_, ?_, ?_, ?_⟩
  · intro u
    rcases meta with _ | ⟨c, mo⟩
    · simp [DirNode.new]
    · rcases c with _ | t
      · simp [DirNode.new]
      · by_cases ht : t < 0 <;>
          simp [DirNode.new, durationSinceEpoch, ht] <;> omega
  · rcases meta with _ | ⟨c, mo⟩
    · simp [DirNode.new]
    · rcases c with _ | t
      · simp [DirNode.new]
      · by_cases ht : t < 0 <;>
          simp [DirNode.new, durationSinceEpoch, ht] <;> omega
  · intro u
    rcases meta with _ | ⟨c, mo⟩
    · simp [DirNode.new]
    · rcases mo with _ | t
      · simp [DirNode.new]
      · by_cases ht : t < 0 <;>
          simp [DirNode.new, durationSinceEpoch, ht] <;> omega
  · rcases meta with _ | ⟨c, mo⟩
    · simp [DirNode.new]
    · rcases mo with _ | t
      · simp [DirNode.new]
      · by_cases ht : t < 0 <;>
          simp [DirNode.new, durationSinceEpoch, ht] <;> omega

/-! ## Facts about keyed row lists -/

theorem find?_key_of_nodup {α κ : Type} [DecidableEq κ] (key : α → κ)
    {l : List α} (hn : (l.map key).Nodup) {a : α} (ha : a ∈ l) :
    l.find? (fun x => key x == key a) = some a := by
  induction l with
  | nil => cases ha
  | cons b l ih =>
    rcases List.mem_cons.mp ha with rfl | ha'
    · simp [List.find?_cons]
    · have hn' := hn
      rw [List.map_cons, List.nodup_cons] at hn'
      rw [List.find?_cons]
      have hne : (key b == key a) = false := by
        by_contra h
        have hba : key b = key a := by
          have := Bool.not_eq_false _ |>.mp h
          exact beq_iff_eq.mp this
        exact hn'.1 (hba ▸ List.mem_map_of_mem key ha')
      rw [hne]
      exact ih hn'.2 ha'

theorem find?_key_none {α κ : Type} [DecidableEq κ] (key : α → κ)
    {l : List α} {k : κ} (h : ∀ a ∈ l, key a ≠ k) :
    l.find? (fun x => key x == k) = none := by
  rw [List.find?_eq_none]
  intro a ha
  simpa using h a ha

theorem find?_path_filtered (l : List LocalFile) (path : String) :
    (l.filter fun g => !(g.path == path)).find? (fun f => f.path == path) = none := by
  rw [List.find?_eq_none]
  intro x hx
  have := (List.mem_filter.mp hx).2
  simpa using this

/-! ## C3 -/

/-- C3: for every capability, path, size, ctime, mtime: immediately after a
successful `add_file(cap, path, s, c, m)`, `check_file(path, s, c, m)` returns
`Some(cap)` (stated for any well-formed index state). -/
theorem add_file_then_check_file (db : DB) (hwf : db.WF) (cap path : String)
    (s c m : Int) (now : Nat) :
    ((db.add_file cap path s c m now).check_file path s c m).1 = some cap := by
  obtain ⟨hnodup, hlt, _, _⟩ := hwf
  have hfile : ∀ id caps' nid,
      (DB.check_file
        { caps := caps', lastUpload := (db.lastUpload.filter fun r => !(r.1 == r.1)) ++ [(id, now)],
          localFiles := (db.localFiles.filter fun g => !(g.path == path)) ++
            [{ path := path, size := s, ctime := c, mtime := m, fileid := id }],
          nextId := nid } path s c m).1 =
      ((caps'.find? fun r => r.1 == id).map Prod.snd) := by
    intro id caps' nid
    unfold DB.check_file
    rw [List.find?_append, find?_path_filtered]
    simp
    cases caps'.find? (fun r => r.1 == id) <;> simp
  unfold DB.add_file
  cases hfind : db.caps.find? (fun r => r.2 == cap) with
  | some c0 =>
    have hc0mem : c0 ∈ db.caps := List.mem_of_find?_eq_some hfind
    have : db.caps.find? (fun r => r.1 == c0.1) = some c0 :=
      find?_key_of_nodup Prod.fst hnodup hc0mem
    have hcap : c0.2 = cap := by
      have := List.find?_some hfind
      simpa using this
    simp only [hfind]
    rw [hfile]
    simp [this, hcap]
  | none =>
    simp only [hfind]
    rw [hfile]
    have hnone : db.caps.find? (fun r => r.1 == db.nextId) = none :=
      find?_key_none Prod.fst (fun a ha => Nat.ne_of_lt (hlt a ha))
    rw [List.find?_append, hnone]
    simp

/-- A concrete well-formed index state, for the index witnesses. -/
def dbW : DB :=
  { caps := [(1, "URI:CHK:old")]
    lastUpload := [(1, 7)]
    localFiles := [{ path := "/q", size := 3, ctime := 4, mtime := 5, fileid := 1 }]
    nextId := 2 }

theorem dbW_wf : dbW.WF := by
  unfold DB.WF dbW
  refine ⟨?_, ?_, ?_, ?_⟩ <;> decide

/-- Witness for C3 at a concrete well-formed state. -/
theorem add_file_then_check_file_witness :
    dbW.WF ∧
    ((dbW.add_file "URI:CHK:xyz" "/abs/a.txt" 5 100 200 42).check_file
      "/abs/a.txt" 5 100 200).1 = some "URI:CHK:xyz" :=
  ⟨dbW_wf, add_file_then_check_file dbW dbW_wf "URI:CHK:xyz" "/abs/a.txt" 5 100 200 42⟩

/-! ## C4 -/

/-- C4: `check_file` returns the stored capability only when the stored
size/ctime/mtime all equal the arguments; when a row for the path exists but
any field differs, exactly that row is deleted and `None` is returned, so a
subsequent `check_file` with the originally stored tuple also returns `None`;
when no row exists, `None` is returned and the index is unchanged (stated for
any well-formed index state). -/
theorem check_file_semantics (db : DB) (hwf : db.WF) (path : String) (s c m : Int) :
    (∀ cap, (db.check_file path s c m).1 = some cap →
      ∃ f ∈ db.localFiles, f.path = path ∧ f.size = s ∧ f.ctime = c ∧ f.mtime = m ∧
        ∃ cr ∈ db.caps, cr.1 = f.fileid ∧ cr.2 = cap) ∧
    (∀ f ∈ db.localFiles, f.path = path → ¬(f.size = s ∧ f.ctime = c ∧ f.mtime = m) →
      (db.check_file path s c m).1 = none ∧
      (∀ g, g ∈ (db.check_file path s c m).2.localFiles ↔
        g ∈ db.localFiles ∧ g.path ≠ path) ∧
      (((db.check_file path s c m).2).check_file path f.size f.ctime f.mtime).1 = none) ∧
    ((∀ f ∈ db.localFiles, f.path ≠ path) → db.check_file path s c m = (none, db)) := by
  obtain ⟨hnodup, hlt, hfk, hpaths⟩ := hwf
  refine ⟨?_, ?_, ?_⟩
  · intro cap hcap
    cases hf : db.localFiles.find? (fun x => x.path == path) with
    | none => simp [DB.check_file, hf] at hcap
    | some f =>
      cases hc : db.caps.find? (fun x => x.1 == f.fileid) with
      | none => simp [DB.check_file, hf, hc] at hcap
      | some cr =>
        simp only [DB.check_file, hf, hc] at hcap
        split at hcap
        · simp at hcap
        · rename_i hcond
          simp only [Bool.or_eq_true, decide_eq_true_eq, not_or, not_not] at hcond
          refine ⟨f, List.mem_of_find?_eq_some hf, ?_, hcond.1.1, hcond.1.2, hcond.2,
            cr, List.mem_of_find?_eq_some hc, ?_, ?_⟩
          · have := List.find?_some hf
            simpa using this
          · have := List.find?_some hc
            simpa using this
          · simpa using hcap
  · intro f hf hfp hm
    have hfind : db.localFiles.find? (fun x => x.path == path) = some f := by
      have := find?_key_of_nodup LocalFile.path hpaths hf
      rw [hfp] at this
      exact this
    obtain ⟨cr, hcr, hcrid⟩ := hfk f hf
    have hcfind : db.caps.find? (fun x => x.1 == f.fileid) = some cr := by
      have := find?_key_of_nodup Prod.fst hnodup hcr
      rw [hcrid] at this
      exact this
    have hq : db.check_file path s c m =
        (none, { db with localFiles := db.localFiles.filter fun g => !(g.path == path) }) := by
      simp only [DB.check_file, hfind, hcfind]
      rw [if_pos]
      simp only [Bool.or_eq_true, decide_eq_true_eq]
      tauto
    refine ⟨by rw [hq], ?_, ?_⟩
    · intro g
      rw [hq]
      simp [List.mem_filter]
    · rw [hq]
      simp only [DB.check_file]
      rw [find?_path_filtered]
  · intro h
    have hfind : db.localFiles.find? (fun x => x.path == path) = none := by
      rw [List.find?_eq_none]
      intro a ha
      simpa using h a ha
    simp [DB.check_file, hfind]

/-- Witness for C4: in the concrete state `dbW`, a size mismatch on `/q`
invalidates the row, and the originally stored tuple subsequently misses. -/
theorem check_file_semantics_witness :
    dbW.WF ∧
    (dbW.check_file "/q" 99 4 5).1 = none ∧
    (((dbW.check_file "/q" 99 4 5).2).check_file "/q" 3 4 5).1 = none := by
  have h := (check_file_semantics dbW dbW_wf "/q" 99 4 5).2.1
    { path := "/q", size := 3, ctime := 4, mtime := 5, fileid := 1 }
    (by decide) rfl (by decide)
  exact ⟨dbW_wf, h.1, h.2.2⟩

/-! ## C5 -/

/-- A concrete index state with two capabilities, each with a `last_upload`
row. -/
def dbC5 : DB :=
  { caps := [(1, "URI:CHK:capA"), (2, "URI:CHK:capB")]
    lastUpload := [(1, 10), (2, 11)]
    localFiles := []
    nextId := 3 }

/-- C5 is a code bug: the claim (and spec §4.2 step 2) says `add_file` deletes
only the `last_upload` row referencing the resolved file-id, leaving rows for
other file-ids unchanged.  The code (backupdb.rs line 72) passes the *column*
`fileid` as the primary-key value, so the delete's predicate is
`fileid = fileid`, which deletes every row: here `add_file` resolves
`"URI:CHK:capB"` to file-id 2, yet the row `(1, 10)` for file-id 1 is also
removed. -/
theorem add_file_last_upload_all_deleted :
    (dbC5.add_file "URI:CHK:capB" "/p" 5 100 200 99).lastUpload = [(2, 99)] ∧
    (1, 10) ∈ dbC5.lastUpload ∧ (1 : Nat) ≠ 2 := by
  decide

/-! ## Pipeline helper lemmas -/

/-- Concatenation of child lists. -/
def Kids.append : Kids → Kids → Kids
  | .nil, k => k
  | .cons n c r, k => .cons n c (r.append k)

/-- Induction over `Kids` alone (the default eliminator of the mutual
inductive has two motives). -/
def Kids.inductAux {motive : Kids → Prop} (hnil : motive .nil)
    (hcons : ∀ n c r, motive r → motive (.cons n c r)) : ∀ k, motive k
  | .nil => hnil
  | .cons n c r => hcons n c r (Kids.inductAux hnil hcons r)

/-- The result of `upload_dir` does not depend on the events accumulated so
far. -/
theorem uploadDirStep_fst (env : Env) (path : String) (d : Dir) (evs evs' : List Event) :
    (uploadDirStep env path d evs).1 = (uploadDirStep env path d evs').1 := by
  unfold uploadDirStep
  cases env.checkDir (i64ofU64 d.hash) with
  | some cap => rfl
  | none => cases env.storeDir d.inner <;> rfl

/-- Lifting a child-stream result equality to the directory upload. -/
theorem uploadNode_dir_congr (env : Env) (path : String) (fm : FsMeta) (k k' : Kids)
    (h : (uploadKids env path k).1 = (uploadKids env path k').1) :
    (uploadNode env path (.dirNode fm k)).1 = (uploadNode env path (.dirNode fm k')).1 := by
  simp only [uploadNode]
  cases h1 : uploadKids env path k with
  | mk r1 e1 =>
    cases h2 : uploadKids env path k' with
    | mk r2 e2 =>
      have hr : r1 = r2 := by
        have := h
        rw [h1, h2] at this
        exact this
      subst hr
      cases r1 with
      | error e => rfl
      | ok pairs => exact uploadDirStep_fst env path (Dir.fromIter pairs) e1 e2

/-- A child whose upload soft-fails contributes nothing to the collected
manifest: the child stream gives the same result as if the child were not
there. -/
theorem uploadKids_soft_skip (env : Env) (path : String) (pre post : Kids)
    (name : String) (child : Node)
    (hsoft : ∃ e evs, uploadNode env (path ++ "/" ++ name) child = (.ok (.error e), evs)) :
    (uploadKids env path (pre.append (.cons name child post))).1 =
      (uploadKids env path (pre.append post)).1 := by
  obtain ⟨e, evs, hchild⟩ := hsoft
  induction pre using Kids.inductAux with
  | hnil =>
    cases hx : env.excluded (path ++ "/" ++ name) with
    | true => simp [Kids.append, uploadKids, hx]
    | false => simp [Kids.append, uploadKids, hx, hchild]
  | hcons n c r ih =>
    simp only [Kids.append, uploadKids]
    cases hx : env.excluded (path ++ "/" ++ n) with
    | true => simpa [hx] using ih
    | false =>
      simp only [hx, Bool.false_eq_true, if_false]
      cases hu : uploadNode env (path ++ "/" ++ n) c with
      | mk res cevs =>
        rcases res with e' | res2
        · rfl
        · rcases res2 with e' | cap
          · simpa using ih
          · cases h1 : uploadKids env path (r.append (.cons name child post)) with
            | mk r1 e1 =>
              cases h2 : uploadKids env path (r.append post) with
              | mk r2 e2 =>
                have hr : r1 = r2 := by
                  have := ih
                  rw [h1, h2] at this
                  exact this
                subst hr
                cases r1 <;> rfl

/-- If the children before a soft-failing child all succeed or soft-fail (no
hard error), the soft failure is logged into the directory's event stream. -/
theorem uploadKids_soft_logged (env : Env) (path : String) (pre post : Kids)
    (name : String) (child : Node) (e : Err) (evs : List Event)
    (hchild : uploadNode env (path ++ "/" ++ name) child = (.ok (.error e), evs))
    (hx : env.excluded (path ++ "/" ++ name) = false)
    (pairs : List (String × DirNode)) (evsP : List Event)
    (hpre : uploadKids env path pre = (.ok pairs, evsP)) :
    Event.logged e ∈ (uploadKids env path (pre.append (.cons name child post))).2 := by
  induction pre using Kids.inductAux generalizing pairs evsP with
  | hnil =>
    simp [Kids.append, uploadKids, hx, hchild]
  | hcons n c r ih =>
    simp only [Kids.append, uploadKids] at hpre ⊢
    cases hx' : env.excluded (path ++ "/" ++ n) with
    | true =>
      rw [hx'] at hpre
      simp only [if_true] at hpre ⊢
      exact ih pairs evsP hpre
    | false =>
      rw [hx'] at hpre
      simp only [Bool.false_eq_true, if_false] at hpre ⊢
      cases hu : uploadNode env (path ++ "/" ++ n) c with
      | mk res cevs =>
        rw [hu] at hpre
        rcases res with e' | res2
        · simp at hpre
        · rcases res2 with e' | cap
          · cases h1 : uploadKids env path r with
            | mk r1 e1 =>
              rw [h1] at hpre
              have hr1 : r1 = .ok pairs := by
                have := congrArg Prod.fst hpre
                simpa using this
              cases h2 : uploadKids env path (r.append (.cons name child post)) with
              | mk rr ee =>
                have hmem := ih pairs e1 (by rw [h1, hr1])
                rw [h2] at hmem
                simp only [h2]
                simp
                right
                right
                simpa using hmem
          · cases h1 : uploadKids env path r with
            | mk r1 e1 =>
              rw [h1] at hpre
              rcases r1 with e' | pairs1
              · simp at hpre
              · cases h2 : uploadKids env path (r.append (.cons name child post)) with
                | mk rr ee =>
                  have hmem := ih pairs1 e1 (by rw [h1])
                  rw [h2] at hmem
                  simp only [h2]
                  cases rr <;> simp <;> right <;> simpa using hmem

/-- If the children before a hard-failing child all survive the stream (no
earlier hard error), the hard failure aborts the whole child stream with that
error. -/
theorem uploadKids_hard_propagates (env : Env) (path : String) (pre post : Kids)
    (name : String) (child : Node) (e : Err) (evs : List Event)
    (hchild : uploadNode env (path ++ "/" ++ name) child = (.error e, evs))
    (hx : env.excluded (path ++ "/" ++ name) = false)
    (pairs : List (String × DirNode)) (evsP : List Event)
    (hpre : uploadKids env path pre = (.ok pairs, evsP)) :
    (uploadKids env path (pre.append (.cons name child post))).1 = .error e := by
  induction pre using Kids.inductAux generalizing pairs evsP with
  | hnil =>
    simp [Kids.append, uploadKids, hx, hchild]
  | hcons n c r ih =>
    simp only [Kids.append, uploadKids] at hpre ⊢
    cases hx' : env.excluded (path ++ "/" ++ n) with
    | true =>
      rw [hx'] at hpre
      simp only [if_true] at hpre ⊢
      exact ih pairs evsP hpre
    | false =>
      rw [hx'] at hpre
      simp only [Bool.false_eq_true, if_false] at hpre ⊢
      cases hu : uploadNode env (path ++ "/" ++ n) c with
      | mk res cevs =>
        rw [hu] at hpre
        rcases res with e' | res2
        · simp at hpre
        · rcases res2 with e' | cap
          · cases h1 : uploadKids env path r with
            | mk r1 e1 =>
              rw [h1] at hpre
              have hr1 : r1 = .ok pairs := by
                have := congrArg Prod.fst hpre
                simpa using this
              have := ih pairs e1 (by rw [h1, hr1])
              cases h2 : uploadKids env path (r.append (.cons name child post)) with
              | mk rr ee =>
                rw [h2] at this
                simp only [h2]
                simpa using this
          · cases h1 : uploadKids env path r with
            | mk r1 e1 =>
              rw [h1] at hpre
              rcases r1 with e' | pairs1
              · simp at hpre
              · have := ih pairs1 e1 (by rw [h1])
                cases h2 : uploadKids env path (r.append (.cons name child post)) with
                | mk rr ee =>
                  rw [h2] at this
                  simp only [h2]
                  simp only [Prod.fst] at this
                  subst this
                  rfl

/-- Child-stream events survive into the directory's event stream. -/
theorem uploadNode_dir_events (env : Env) (path : String) (fm : FsMeta) (k : Kids)
    {x : Event} (h : x ∈ (uploadKids env path k).2) :
    x ∈ (uploadNode env path (.dirNode fm k)).2 := by
  cases h1 : uploadKids env path k with
  | mk r evsK =>
    rw [h1] at h
    cases r with
    | error e => simpa [uploadNode, h1] using h
    | ok pairs =>
      simp only [uploadNode, h1]
      cases hcd : env.checkDir (i64ofU64 (Dir.fromIter pairs).hash) with
      | some cap => simpa [uploadDirStep, hcd] using h
      | none =>
        cases hsd : env.storeDir (Dir.fromIter pairs).inner <;>
          simp [uploadDirStep, hcd, hsd, h]

/-- Fact: `main` exits 0 however `run` ends. -/
theorem mainExitCode_always_zero (env : Env) (rootPath : String) (root : Node)
    (arch : String) : mainExitCode env rootPath root arch = 0 := by
  unfold mainExitCode
  cases (runWork env rootPath root arch).1 <;> rfl

/-! ## C6 -/

/-- C6: for a regular-file entry, `upload` consults `check_file` with the
file's size, ctime and mtime; on a hit it returns the stored capability at
once — the result is `Ok(cap)` with an empty effect trace, so the file is not
opened and no store request is issued for it. -/
theorem check_file_hit_skips_upload (env : Env) (path : String)
    (size : Nat) (ctimeF : Option Nat) (mtimeF : Nat) (openOk : Bool) (fm : FsMeta)
    (cap : String)
    (h : env.checkFile path (i64ofU64 size) (i64ofU64 (ctimeF.getD 0)) (i64ofU64 mtimeF)
      = some cap) :
    uploadNode env path (.file size ctimeF mtimeF openOk fm) = (.ok (.ok cap), []) := by
  simp [uploadNode, h]

/-- An environment whose index always hits, for the C6 witness. -/
def envHit : Env :=
  { checkFile := fun _ _ _ _ => some "URI:CHK:xyz"
    checkDir := fun _ => none
    storeFile := fun _ => .transport
    storeDir := fun _ => .transport
    attach := fun _ _ => false
    excluded := fun _ => false }

/-- Witness for C6: a concrete hit returns the stored capability with no
events, even though the store and the open would fail. -/
theorem check_file_hit_skips_upload_witness :
    envHit.checkFile "/abs/a.txt" (i64ofU64 5) (i64ofU64 ((some 100 : Option Nat).getD 0))
      (i64ofU64 200) = some "URI:CHK:xyz" ∧
    uploadNode envHit "/abs/a.txt" (.file 5 (some 100) 200 true ⟨some 100, some 200⟩)
      = (.ok (.ok "URI:CHK:xyz"), []) :=
  ⟨rfl, check_file_hit_skips_upload envHit "/abs/a.txt" 5 (some 100) 200 true
    ⟨some 100, some 200⟩ "URI:CHK:xyz" rfl⟩

/-! ## C7 -/

/-- C7: a child that is a symlink, or a regular file whose open fails (after
an index miss), is logged (`ok_or_log`) and omitted from the parent's
manifest: the parent's upload result is the same as if the child were absent,
the soft error is logged into the event stream (provided the stream reaches
the child, i.e. the preceding children produced no hard error), and the
process exit code is zero. -/
theorem soft_child_omitted (env : Env) (path name : String) (child : Node)
    (pre post : Kids) (fm : FsMeta) (rootPath arch : String) (root : Node)
    (hsoft : (∃ m, child = Node.symlink m) ∨
      (∃ size ctF mtF m, child = Node.file size ctF mtF false m ∧
        env.checkFile (path ++ "/" ++ name) (i64ofU64 size) (i64ofU64 (ctF.getD 0))
          (i64ofU64 mtF) = none)) :
    ((uploadNode env path (.dirNode fm (pre.append (.cons name child post)))).1 =
      (uploadNode env path (.dirNode fm (pre.append post))).1) ∧
    (env.excluded (path ++ "/" ++ name) = false →
      ∀ pairs evsP, uploadKids env path pre = (.ok pairs, evsP) →
        ∃ e, Event.logged e ∈
            (uploadNode env path (.dirNode fm (pre.append (.cons name child post)))).2 ∧
          (e = Err.notFollowingSymlink ∨ e = Err.fileOpen (path ++ "/" ++ name))) ∧
    mainExitCode env rootPath root arch = 0 := by
  have hchild : ∃ e evs, uploadNode env (path ++ "/" ++ name) child = (.ok (.error e), evs) ∧
      (e = Err.notFollowingSymlink ∨ e = Err.fileOpen (path ++ "/" ++ name)) := by
    rcases hsoft with ⟨m, rfl⟩ | ⟨size, ctF, mtF, m, rfl, hmiss⟩
    · exact ⟨.notFollowingSymlink, [], by simp [uploadNode], Or.inl rfl⟩
    · exact ⟨.fileOpen (path ++ "/" ++ name), [.openFile (path ++ "/" ++ name)],
        by simp [uploadNode, hmiss], Or.inr rfl⟩
  obtain ⟨e, evs, hch, he⟩ := hchild
  refine ⟨?_, ?_, mainExitCode_always_zero env rootPath root arch⟩
  · exact uploadNode_dir_congr env path fm _ _
      (uploadKids_soft_skip env path pre post name child ⟨e, evs, hch⟩)
  · intro hx pairs evsP hpre
    exact ⟨e, uploadNode_dir_events env path fm _
      (uploadKids_soft_logged env path pre post name child e evs hch hx pairs evsP hpre), he⟩

/-- An environment in which every store operation succeeds and nothing is
cached, for the C7 witness. -/
def envOk : Env :=
  { checkFile := fun _ _ _ _ => none
    checkDir := fun _ => none
    storeFile := fun _ => .ok "URI:CHK:ok"
    storeDir := fun _ => .ok "URI:DIR:parent"
    attach := fun _ _ => true
    excluded := fun _ => false }

/-- Witness for C7: in a directory holding a symlink `bad` before a readable
file `ok`, the symlink is logged and omitted and the parent's upload result
equals the one without it. -/
theorem soft_child_omitted_witness :
    ((∃ m, Node.symlink ⟨none, none⟩ = Node.symlink m) ∨
      (∃ size ctF mtF m, Node.symlink ⟨none, none⟩ = Node.file size ctF mtF false m ∧
        envOk.checkFile ("/r" ++ "/" ++ "bad") (i64ofU64 size) (i64ofU64 (ctF.getD 0))
          (i64ofU64 mtF) = none)) ∧
    ((uploadNode envOk "/r" (.dirNode ⟨none, none⟩
        (Kids.nil.append (.cons "bad" (.symlink ⟨none, none⟩)
          (.cons "ok" (.file 5 none 7 true ⟨none, none⟩) .nil))))).1 =
      (uploadNode envOk "/r" (.dirNode ⟨none, none⟩
        (Kids.nil.append (.cons "ok" (.file 5 none 7 true ⟨none, none⟩) .nil)))).1) ∧
    (∃ e, Event.logged e ∈
        (uploadNode envOk "/r" (.dirNode ⟨none, none⟩
          (Kids.nil.append (.cons "bad" (.symlink ⟨none, none⟩)
            (.cons "ok" (.file 5 none 7 true ⟨none, none⟩) .nil))))).2 ∧
      (e = Err.notFollowingSymlink ∨ e = Err.fileOpen ("/r" ++ "/" ++ "bad"))) ∧
    mainExitCode envOk "/r" (.file 1 none 0 true ⟨none, none⟩) "Archives/t" = 0 := by
  have h := soft_child_omitted envOk "/r" "bad" (.symlink ⟨none, none⟩)
    .nil (.cons "ok" (.file 5 none 7 true ⟨none, none⟩) .nil) ⟨none, none⟩
    "/r" "Archives/t" (.file 1 none 0 true ⟨none, none⟩)
    (Or.inl ⟨⟨none, none⟩, rfl⟩)
  exact ⟨Or.inl ⟨⟨none, none⟩, rfl⟩, h.1, h.2.1 rfl [] [] rfl, h.2.2⟩

/-! ## C1 -/

/-- The environment of the C1 counterexample: the index misses everywhere,
every upload succeeds except the PUT of `/r/b`, which the store answers with
HTTP 500. -/
def envC1 : Env :=
  { checkFile := fun _ _ _ _ => none
    checkDir := fun _ => none
    storeFile := fun p => if p = "/r/b" then .status 500 else .ok "URI:CHK:sib"
    storeDir := fun _ => .ok "URI:DIR:parent"
    attach := fun _ _ => true
    excluded := fun _ => false }

/-- The directory of the C1 counterexample: three regular files `a`, `b`, `c`;
the store rejects only `b`. -/
def treeC1 : Node :=
  .dirNode ⟨none, none⟩
    (.cons "a" (.file 1 none 0 true ⟨none, none⟩)
      (.cons "b" (.file 1 none 0 true ⟨none, none⟩)
        (.cons "c" (.file 1 none 0 true ⟨none, none⟩) .nil)))

/-- Counterexample to C1 as stated: with the store returning HTTP 500 for the
PUT of child `b`, the parent directory's upload does *not* complete with a
manifest omitting `b` — it fails hard with `FileUpload("/r/b")` (the error is
mapped into the future's error channel, main.rs line 170, and propagates
through the child stream); no directory POST happens (no `postDir` event) and
sibling `c` is never uploaded. -/
theorem store_500_fails_parent_counterexample :
    uploadNode envC1 "/r" treeC1 =
      (.error (.fileUpload "/r/b"),
        [.openFile "/r/a", .putFile "/r/a", .openFile "/r/b", .putFile "/r/b"]) := by
  rfl

/-- C1 amended: if the store returns a non-2xx status (or a transport error)
for a child file's upload, and the preceding children produced no hard error,
the child's entry fails with `FileUpload(child-path)` and that failure
propagates: the parent's upload fails with the same error instead of building
a manifest from the surviving children.  (The log-and-omit policy applies to
symlink, metadata, open, read-dir and unknown-file failures, not to store
upload failures.) -/
theorem store_failure_fails_parent (env : Env) (path name : String)
    (size : Nat) (ctF : Option Nat) (mtF : Nat) (fm fmd : FsMeta) (pre post : Kids)
    (pairs : List (String × DirNode)) (evsP : List Event)
    (hpre : uploadKids env path pre = (.ok pairs, evsP))
    (hx : env.excluded (path ++ "/" ++ name) = false)
    (hmiss : env.checkFile (path ++ "/" ++ name) (i64ofU64 size) (i64ofU64 (ctF.getD 0))
      (i64ofU64 mtF) = none)
    (hstore : ∀ cap, env.storeFile (path ++ "/" ++ name) ≠ .ok cap) :
    (uploadNode env path
      (.dirNode fmd (pre.append (.cons name (.file size ctF mtF true fm) post)))).1 =
      .error (.fileUpload (path ++ "/" ++ name)) := by
  have hchild : uploadNode env (path ++ "/" ++ name) (.file size ctF mtF true fm) =
      (.error (.fileUpload (path ++ "/" ++ name)),
        [.openFile (path ++ "/" ++ name), .putFile (path ++ "/" ++ name)]) := by
    cases hs : env.storeFile (path ++ "/" ++ name) with
    | ok cap => exact absurd hs (hstore cap)
    | status code => simp [uploadNode, hmiss, hs]
    | transport => simp [uploadNode, hmiss, hs]
  have hk := uploadKids_hard_propagates env path pre post name
    (.file size ctF mtF true fm) (.fileUpload (path ++ "/" ++ name)) _ hchild hx pairs evsP hpre
  simp only [uploadNode]
  cases h1 : uploadKids env path (pre.append (.cons name (.file size ctF mtF true fm) post)) with
  | mk r evsK =>
    rw [h1] at hk
    simp only [Prod.fst] at hk
    subst hk
    rfl

/-- Witness for the amended C1, instantiating it on the concrete
counterexample input: the parent of `/r/b` fails with `FileUpload("/r/b")`. -/
theorem store_failure_fails_parent_witness :
    uploadKids envC1 "/r" .nil = (.ok [], []) ∧
    envC1.excluded ("/r" ++ "/" ++ "b") = false ∧
    envC1.checkFile ("/r" ++ "/" ++ "b") (i64ofU64 1) (i64ofU64 ((none : Option Nat).getD 0))
      (i64ofU64 0) = none ∧
    (uploadNode envC1 "/r"
      (.dirNode ⟨none, none⟩ (Kids.nil.append (.cons "b"
        (.file 1 none 0 true ⟨none, none⟩)
        (.cons "c" (.file 1 none 0 true ⟨none, none⟩) .nil))))).1 =
      .error (.fileUpload ("/r" ++ "/" ++ "b")) :=
  ⟨rfl, rfl, rfl,
    store_failure_fails_parent envC1 "/r" "b" 1 none 0 ⟨none, none⟩ ⟨none, none⟩
      .nil (.cons "c" (.file 1 none 0 true ⟨none, none⟩) .nil) [] [] rfl rfl rfl
      (fun cap h => by simp [envC1] at h)⟩

/-! ## C9 -/

/-- The environment of the C9 counterexample: the root file uploads fine, the
`Archives/…` attach succeeds, the `Latest` attach fails. -/
def envC9 : Env :=
  { checkFile := fun _ _ _ _ => none
    checkDir := fun _ => none
    storeFile := fun _ => .ok "URI:CHK:root"
    storeDir := fun _ => .ok "URI:DIR:root"
    attach := fun n _ => !(n == "Latest")
    excluded := fun _ => false }

/-- The root entry of the C9 counterexample: a single regular file. -/
def rootC9 : Node := .file 1 none 0 true ⟨none, none⟩

/-- Counterexample to C9 as stated: the claim says the run is treated as
successful (exit code zero) *only if* both attach calls succeed.  Here the
`Latest` attach fails and `run` returns an error — yet the process exit code
is still 0, because `main` (main.rs lines 371-373) logs the error and
discards it. -/
theorem attach_failure_exit_zero_counterexample :
    envC9.attach "Latest" "URI:CHK:root" = false ∧
    (runWork envC9 "/r" rootC9 "Archives/ts").1 = .error .attachFailed ∧
    mainExitCode envC9 "/r" rootC9 "Archives/ts" = 0 := by
  refine ⟨rfl, ?_, rfl⟩
  rfl

/-- C9 amended: after the root upload returns a capability, the driver issues
both attach requests — `Archives/<timestamp>` and `Latest` — and `run`
returns `Ok` exactly when both succeed (a failure of either one makes `run`
fail, which is logged); the process exit code, however, is 0 regardless,
because `main` discards `run`'s result. -/
theorem run_attach_semantics (env : Env) (rootPath : String) (root : Node)
    (arch : String) (cap : String)
    (h : (uploadNode env rootPath root).1 = .ok (.ok cap)) :
    ((runWork env rootPath root arch).1 = .ok () ↔
      (env.attach arch cap = true ∧ env.attach "Latest" cap = true)) ∧
    Event.attachReq arch cap ∈ (runWork env rootPath root arch).2 ∧
    Event.attachReq "Latest" cap ∈ (runWork env rootPath root arch).2 ∧
    mainExitCode env rootPath root arch = 0 := by
  refine ⟨?_, ?_, ?_, mainExitCode_always_zero env rootPath root arch⟩ <;>
  · cases hu : uploadNode env rootPath root with
    | mk r evs =>
      rw [hu] at h
      simp only [Prod.fst] at h
      subst h
      cases ha1 : env.attach arch cap <;> cases ha2 : env.attach "Latest" cap <;>
        simp [runWork, hu, ha1, ha2]

/-- Witness for the amended C9 at a concrete input: both attach requests are
issued, `run` fails because `Latest` fails, and the exit code is 0. -/
theorem run_attach_semantics_witness :
    (uploadNode envC9 "/r" rootC9).1 = .ok (.ok "URI:CHK:root") ∧
    ¬ ((runWork envC9 "/r" rootC9 "Archives/ts").1 = .ok ()) ∧
    Event.attachReq "Latest" "URI:CHK:root" ∈ (runWork envC9 "/r" rootC9 "Archives/ts").2 ∧
    mainExitCode envC9 "/r" rootC9 "Archives/ts" = 0 := by
  have h := run_attach_semantics envC9 "/r" rootC9 "Archives/ts" "URI:CHK:root" rfl
  refine ⟨rfl, fun hk => ?_, h.2.2.1, h.2.2.2⟩
  have := h.1.mp hk
  simp [envC9] at this

end TahoeBackup
